import Mathlib

/-!
Verification of the Chatify repository.

Part 1 is a shallow embedding of src/backend/db/connectToMongoDB.js, the
only executable source file of the snapshot.  Part 2 models the Room
Membership and Broadcast Coordinator that the specification describes
(RoomRegistry and PresenceCoordinator); its source is not part of the
repository snapshot, so those definitions are modelled from the
specification text and marked as such.
-/

namespace Chatify

/-- Outcome of the promise returned by mongoose.connect: it either
fulfils or rejects with an error value (shown as its message). -/
inductive ConnectOutcome where
  | resolved : ConnectOutcome
  | rejected : String → ConnectOutcome
deriving DecidableEq, Repr

/-- An observable effect of running connectToMongoDB: the call to
mongoose.connect with the URI it received, console output, or the
activation of an in-memory fallback store.  The last constructor exists
because the repository README and the specification document a fallback
to in-memory storage when MongoDB is unreachable; the source of
connectToMongoDB never emits it, which the theorems below make precise. -/
inductive Effect where
  | mongooseConnect : Option String → Effect
  | consoleLog : String → Effect
  | consoleError : String → Effect
  | activateFallback : Effect
deriving DecidableEq, Repr

/-- Shallow embedding of connectToMongoDB
(src/backend/db/connectToMongoDB.js, lines 3 to 10).  env is
process.env.MONGO_DB_URI, with none standing for undefined when the
variable is unset; connect is the behaviour of mongoose.connect on the
URI it is handed.  The body awaits mongoose.connect(env) inside
try/catch: on fulfilment it logs success to the console, on rejection it
logs the error; in both cases the async function itself resolves with
undefined, modelled as Except.ok Unit.unit.  The first component is the
trace of effects the call performs, in order. -/
def connectToMongoDB (env : Option String)
    (connect : Option String → ConnectOutcome) :
    List Effect × Except String Unit :=
  match connect env with
  | ConnectOutcome.resolved =>
      ([Effect.mongooseConnect env,
        Effect.consoleLog "Successfully connected to MongoDB"],
       Except.ok Unit.unit)
  | ConnectOutcome.rejected e =>
      ([Effect.mongooseConnect env,
        Effect.consoleError ("Error connecting to MongoDB: " ++ e)],
       Except.ok Unit.unit)

/-- Claim C9: for every environment and every outcome of the underlying
mongoose.connect call, the promise returned by connectToMongoDB fulfils
with undefined; a connection failure is never propagated to the caller
as a rejection or thrown exception, so success and failure are
indistinguishable from the return value. -/
theorem connectToMongoDB_fulfills_undefined (env : Option String)
    (connect : Option String → ConnectOutcome) :
    (connectToMongoDB env connect).2 = Except.ok Unit.unit ∧
    ∀ other : Option String → ConnectOutcome,
      (connectToMongoDB env connect).2 = (connectToMongoDB env other).2 := by
  constructor
  · unfold connectToMongoDB
    cases connect env <;> rfl
  · intro other
    unfold connectToMongoDB
    cases connect env <;> cases other env <;> rfl

/-- Claim C10: connectToMongoDB hands process.env.MONGO_DB_URI to
mongoose.connect verbatim, with no validation, default or fallback: the
connect call is the first effect and carries exactly env (none included,
so an unset variable still yields an attempt with undefined), and no
connect call with any other URI ever appears in the trace. -/
theorem connectToMongoDB_passes_env_verbatim (env : Option String)
    (connect : Option String → ConnectOutcome) :
    (connectToMongoDB env connect).1.head? = some (Effect.mongooseConnect env) ∧
    ∀ u : Option String,
      Effect.mongooseConnect u ∈ (connectToMongoDB env connect).1 → u = env := by
  constructor
  · unfold connectToMongoDB
    cases connect env <;> rfl
  · intro u hu
    unfold connectToMongoDB at hu
    cases hco : connect env <;> simp [hco] at hu <;> exact hu

/-- Claim C1, evaluated at the failing input: when mongoose.connect
rejects (here with the message "connection refused" and the URI unset),
connectToMongoDB still resolves with undefined — the process does not
abort and the failure is caught and logged locally — but its entire
effect trace is the connect attempt followed by the console error: the
in-memory fallback store the README and the specification document is
never activated. -/
theorem connectToMongoDB_failure_activates_no_fallback :
    (connectToMongoDB none
        (fun _ => ConnectOutcome.rejected "connection refused")).1 =
      [Effect.mongooseConnect none,
       Effect.consoleError "Error connecting to MongoDB: connection refused"] ∧
    Effect.activateFallback ∉
      (connectToMongoDB none
        (fun _ => ConnectOutcome.rejected "connection refused")).1 ∧
    (connectToMongoDB none
        (fun _ => ConnectOutcome.rejected "connection refused")).2 =
      Except.ok Unit.unit := by
  refine ⟨rfl, ?_, rfl⟩
  decide

/-- A user identifier: opaque and stable, modelled as Nat. -/
abbrev UserId := Nat

/-- A room key: the unique URL-safe string identifying a room. -/
abbrev RoomKey := String

/-- Modelled from the spec: the Room record of section 3 (the
RoomRegistry source is not part of the repository snapshot).  members is
the set of UserId, kept as a list so that freedom from duplicates is a
provable property of the operations rather than of the type. -/
structure Room where
  key : RoomKey
  ownerId : UserId
  members : List UserId
deriving DecidableEq, Repr

/-- Modelled from the spec: the error taxonomy of section 7 that the
registry operations surface. -/
inductive RegErr where
  | RoomNotFound : RegErr
  | AlreadyMember : RegErr
  | NotMember : RegErr
  | NotOwner : RegErr
  | CannotKickSelf : RegErr
  | StorageError : RegErr
deriving DecidableEq, Repr

/-- Modelled from the spec: the Store of room records the RoomRegistry
consumes, keyed by room key. -/
abbrev Store := List Room

/-- Look a room up in the store by its key. -/
def findRoom (s : Store) (key : RoomKey) : Option Room :=
  s.find? (fun q => q.key = key)

/-- Persist an updated room record under its key. -/
def putRoom (s : Store) (key : RoomKey) (r : Room) : Store :=
  s.map (fun q => if q.key = key then r else q)

/-- Remove the room stored under a key. -/
def removeRoom (s : Store) (key : RoomKey) : Store :=
  s.filter (fun q => q.key ≠ key)

/-- Modelled from the spec, section 4.1: createRoom persists a room whose
members set contains exactly the owner.  Key generation is
collision-checked against the store, so the model takes the generated key
as an argument and refuses a colliding one. -/
def createRoom (s : Store) (ownerId : UserId) (key : RoomKey) : Option Store :=
  match findRoom s key with
  | some _ => none
  | none => some (Room.mk key ownerId [ownerId] :: s)

/-- Modelled from the spec, section 4.1: joinRoom fails with RoomNotFound
when the key is unknown; when userId is already a member it follows the
policy the specification recommends and this development documents —
idempotent no-op returning the current snapshot unchanged; otherwise it
adds userId to members, persists, and returns the updated snapshot. -/
def joinRoom (s : Store) (key : RoomKey) (userId : UserId) :
    Except RegErr (Room × Store) :=
  match findRoom s key with
  | none => Except.error RegErr.RoomNotFound
  | some r =>
      if userId ∈ r.members then Except.ok (r, s)
      else
        Except.ok ({ r with members := userId :: r.members },
          putRoom s key { r with members := userId :: r.members })

/-- Result of leaveRoom: an updated snapshot, or RoomDeleted when the
leaving user was the owner and the room was deleted. -/
inductive LeaveResult where
  | snapshot : Room → LeaveResult
  | RoomDeleted : LeaveResult
deriving DecidableEq, Repr

/-- Modelled from the spec, sections 4.1 and 9: leaveRoom fails with
RoomNotFound or NotMember as appropriate; it removes userId from members
and persists; when the leaving user is the owner the room is deleted
(the delete-on-owner-leave policy section 9 chooses). -/
def leaveRoom (s : Store) (key : RoomKey) (userId : UserId) :
    Except RegErr (LeaveResult × Store) :=
  match findRoom s key with
  | none => Except.error RegErr.RoomNotFound
  | some r =>
      if userId ∈ r.members then
        if userId = r.ownerId then
          Except.ok (LeaveResult.RoomDeleted, removeRoom s key)
        else
          Except.ok (LeaveResult.snapshot { r with members := r.members.erase userId },
            putRoom s key { r with members := r.members.erase userId })
      else Except.error RegErr.NotMember

/-- Modelled from the spec, section 4.1: kickMember fails with
RoomNotFound when the key is unknown; otherwise with NotOwner when the
requester is not the owner; otherwise with CannotKickSelf when the target
is the owner; otherwise with NotMember when the target is not currently
in the members set; in the remaining case it removes the target from
members and persists the room. -/
def kickMember (s : Store) (key : RoomKey) (requesterId targetId : UserId) :
    Except RegErr Store :=
  match findRoom s key with
  | none => Except.error RegErr.RoomNotFound
  | some r =>
      if requesterId = r.ownerId then
        if targetId = r.ownerId then Except.error RegErr.CannotKickSelf
        else if targetId ∈ r.members then
          Except.ok (putRoom s key { r with members := r.members.erase targetId })
        else Except.error RegErr.NotMember
      else Except.error RegErr.NotOwner

/-- A room found under a key carries that key. -/
theorem findRoom_key {s : Store} {key : RoomKey} {r : Room}
    (h : findRoom s key = some r) : r.key = key := by
  have hp := List.find?_some h
  simpa using hp

/-- Updating the room stored under a key makes the update visible to the
next lookup of that key, provided the key was present and the updated
record keeps the key. -/
theorem findRoom_putRoom {s : Store} {key : RoomKey} {r newR : Room}
    (h : findRoom s key = some r) (hk : newR.key = key) :
    findRoom (putRoom s key newR) key = some newR := by
  induction s with
  | nil => simp [findRoom] at h
  | cons q t ih =>
      by_cases hq : q.key = key
      · simp [findRoom, putRoom, List.find?, hq, hk]
      · have h2 : findRoom t key = some r := by
          simpa [findRoom, List.find?, hq] using h
        simpa [findRoom, putRoom, List.find?, hq] using ih h2

/-- Claim C2: for every store, room key, requester and target, kickMember
fails with RoomNotFound when the key is unknown; otherwise with NotOwner
when the requester is not the room's owner; otherwise with CannotKickSelf
when the target equals the owner; otherwise with NotMember when the
target is not currently in the members set; and in the remaining case it
removes exactly the target from the members set and persists the room. -/
theorem kickMember_case_analysis (s : Store) (key : RoomKey) (req tgt : UserId) :
    (findRoom s key = none →
      kickMember s key req tgt = Except.error RegErr.RoomNotFound) ∧
    ∀ r : Room, findRoom s key = some r →
      (req ≠ r.ownerId →
        kickMember s key req tgt = Except.error RegErr.NotOwner) ∧
      (req = r.ownerId → tgt = r.ownerId →
        kickMember s key req tgt = Except.error RegErr.CannotKickSelf) ∧
      (req = r.ownerId → tgt ≠ r.ownerId → tgt ∉ r.members →
        kickMember s key req tgt = Except.error RegErr.NotMember) ∧
      (req = r.ownerId → tgt ≠ r.ownerId → tgt ∈ r.members →
        kickMember s key req tgt =
          Except.ok (putRoom s key { r with members := r.members.erase tgt }) ∧
        findRoom (putRoom s key { r with members := r.members.erase tgt }) key =
          some { r with members := r.members.erase tgt } ∧
        (r.members.Nodup →
          ∀ v : UserId, v ∈ r.members.erase tgt ↔ v ∈ r.members ∧ v ≠ tgt)) := by
  constructor
  · intro h
    simp [kickMember, h]
  · intro r hr
    refine ⟨?_, ?_, ?_, ?_⟩
    · intro hno
      simp [kickMember, hr, hno]
    · intro h1 h2
      simp [kickMember, hr, h1, h2]
    · intro h1 h2 h3
      simp [kickMember, hr, h1, h2, h3]
    · intro h1 h2 h3
      refine ⟨by simp [kickMember, hr, h1, h2, h3], ?_, ?_⟩
      · have hk2 := findRoom_key hr
        exact findRoom_putRoom hr hk2
      · intro hnd v
        rw [List.Nodup.mem_erase_iff hnd]
        tauto

/-- Witness for claim C2, exercising the successful branch at a concrete
store: the owner 1 of room k kicks member 2, and the persisted room keeps
owner 1 and drops exactly member 2. -/
theorem kickMember_case_analysis_witness :
    kickMember [Room.mk "k" 1 [2, 1]] "k" 1 2 =
      Except.ok [Room.mk "k" 1 [1]] := by
  have h := (kickMember_case_analysis [Room.mk "k" 1 [2, 1]] "k" 1 2).2
    (Room.mk "k" 1 [2, 1]) (by decide)
  have h2 := (h.2.2.2 rfl (by decide) (by decide)).1
  simpa [putRoom] using h2

/-- A message the coordinator emits: a private reply delivered only to
one user's connection, or a broadcast to a room. -/
inductive Msg where
  | privateTo : UserId → String → Msg
  | broadcastTo : RoomKey → String → Msg
deriving DecidableEq, Repr

/-- The error name surfaced to the requester; per section 7 the NotOwner
authorization failure is surfaced as Forbidden. -/
def errText : RegErr → String
  | RegErr.RoomNotFound => "RoomNotFound"
  | RegErr.AlreadyMember => "AlreadyMember"
  | RegErr.NotMember => "NotMember"
  | RegErr.NotOwner => "Forbidden"
  | RegErr.CannotKickSelf => "CannotKickSelf"
  | RegErr.StorageError => "StorageError"

/-- Modelled from the spec, section 4.2 onKick: ownership is re-validated
through RoomRegistry.kickMember; on success the target receives a private
kicked notice and user_kicked is broadcast to the remaining room; on
failure the error is private to the requester, never broadcast. -/
def onKick (s : Store) (key : RoomKey) (requesterId targetId : UserId) :
    Store × List Msg :=
  match kickMember s key requesterId targetId with
  | Except.error e => (s, [Msg.privateTo requesterId (errText e)])
  | Except.ok updated =>
      (updated, [Msg.privateTo targetId "kicked", Msg.broadcastTo key "user_kicked"])

/-- Claim C4: for every room state and every kick request whose requester
is not the room's owner, the operation fails with Forbidden, the store —
and with it the room's membership set — is unchanged, and the only
message emitted is a private reply to the requester; nothing is broadcast
to the room. -/
theorem onKick_nonowner_forbidden (s : Store) (key : RoomKey)
    (req tgt : UserId) (r : Room)
    (hr : findRoom s key = some r) (hno : req ≠ r.ownerId) :
    onKick s key req tgt = (s, [Msg.privateTo req "Forbidden"]) ∧
    findRoom (onKick s key req tgt).1 key = some r ∧
    ∀ (k : RoomKey) (p : String),
      Msg.broadcastTo k p ∉ (onKick s key req tgt).2 := by
  have hk : kickMember s key req tgt = Except.error RegErr.NotOwner := by
    simp [kickMember, hr, hno]
  refine ⟨by simp [onKick, hk, errText], ?_, ?_⟩
  · simp [onKick, hk]
    exact hr
  · intro k p
    simp [onKick, hk]

/-- Witness for claim C4: user 2, who does not own room k, tries to kick
the owner 1; the store is untouched and the only output is the private
Forbidden reply to user 2. -/
theorem onKick_nonowner_forbidden_witness :
    onKick [Room.mk "k" 1 [2, 1]] "k" 2 1 =
      ([Room.mk "k" 1 [2, 1]], [Msg.privateTo 2 "Forbidden"]) :=
  (onKick_nonowner_forbidden [Room.mk "k" 1 [2, 1]] "k" 2 1
    (Room.mk "k" 1 [2, 1]) (by decide) (by decide)).1

/-- Claim C5: joinRoom is idempotent per user under the documented
(recommended) policy: the first call succeeds with some snapshot and
updated store, the second call with the same user is a no-op returning
the same snapshot and the same store, and the resulting members set
contains the user exactly once and stays duplicate-free. -/
theorem joinRoom_idempotent (s : Store) (key : RoomKey) (u : UserId) (r : Room)
    (hr : findRoom s key = some r) (hnd : r.members.Nodup) :
    ∃ (r1 : Room) (s1 : Store),
      joinRoom s key u = Except.ok (r1, s1) ∧
      joinRoom s1 key u = Except.ok (r1, s1) ∧
      r1.members.count u = 1 ∧ r1.members.Nodup := by
  by_cases hm : u ∈ r.members
  · refine ⟨r, s, by simp [joinRoom, hr, hm], by simp [joinRoom, hr, hm], ?_, hnd⟩
    exact List.count_eq_one_of_mem hnd hm
  · refine ⟨{ r with members := u :: r.members },
      putRoom s key { r with members := u :: r.members },
      by simp [joinRoom, hr, hm], ?_, ?_, ?_⟩
    · have hk2 := findRoom_key hr
      have hfind := @findRoom_putRoom s key r { r with members := u :: r.members } hr hk2
      simp [joinRoom, hfind]
    · simp [List.count_cons, List.count_eq_zero_of_not_mem hm]
    · simp [List.nodup_cons, hm, hnd]

/-- Witness for claim C5: user 2 joins room k twice; the second call
returns the snapshot and store of the first unchanged, and 2 appears
exactly once among the members. -/
theorem joinRoom_idempotent_witness :
    ∃ (r1 : Room) (s1 : Store),
      joinRoom [Room.mk "k" 1 [1]] "k" 2 = Except.ok (r1, s1) ∧
      joinRoom s1 "k" 2 = Except.ok (r1, s1) ∧
      r1.members.count 2 = 1 ∧ r1.members.Nodup :=
  joinRoom_idempotent [Room.mk "k" 1 [1]] "k" 2 (Room.mk "k" 1 [1])
    (by decide) (by decide)

/-- One membership operation issued on the room by some session. -/
inductive Op where
  | join : UserId → Op
  | leave : UserId → Op
  | kick : UserId → UserId → Op
deriving DecidableEq, Repr

/-- The record of successful membership events, newest first: (u, true)
when user u successfully joined, (u, false) when u successfully left or
was successfully kicked. -/
abbrev Trace := List (UserId × Bool)

/-- Modelled from the spec: one operation applied to the room through the
registry operations, on the state of that single room (none once the room
was deleted by an owner leave), together with the trace of successful
membership events; a failed operation changes nothing and records
nothing. -/
def applyOp (key : RoomKey) : Option Room × Trace → Op → Option Room × Trace
  | (none, tr), _ => (none, tr)
  | (some r, tr), Op.join u =>
      match joinRoom [r] key u with
      | Except.ok (_, updated) => (findRoom updated key, (u, true) :: tr)
      | Except.error _ => (some r, tr)
  | (some r, tr), Op.leave u =>
      match leaveRoom [r] key u with
      | Except.ok (_, updated) => (findRoom updated key, (u, false) :: tr)
      | Except.error _ => (some r, tr)
  | (some r, tr), Op.kick q t =>
      match kickMember [r] key q t with
      | Except.ok updated => (findRoom updated key, (t, false) :: tr)
      | Except.error _ => (some r, tr)

/-- The room as createRoom persists it: members contain exactly the owner. -/
def initRoom (key : RoomKey) (owner : UserId) : Room :=
  Room.mk key owner [owner]

/-- createRoom on an empty store persists exactly the initial room. -/
theorem createRoom_initRoom (owner : UserId) (key : RoomKey) :
    createRoom [] owner key = some [initRoom key owner] := rfl

/-- Run a sequence of operations on a single room from its creation. -/
def runOps (key : RoomKey) (owner : UserId) (ops : List Op) :
    Option Room × Trace :=
  ops.foldl (applyOp key) (some (initRoom key owner), [])

/-- The user's last recorded membership event, if any. -/
def lastEvent (tr : Trace) (u : UserId) : Option Bool :=
  (tr.find? (fun p => p.1 = u)).map (fun p => p.2)

/-- The set the specification's sentence describes, as a predicate: the
user's last successful operation on the room was a join, and the user has
not since left or been kicked. -/
def lastOpWasJoin (tr : Trace) (u : UserId) : Bool :=
  lastEvent tr u == some true

/-- The newest event of a user decides lastOpWasJoin for that user. -/
theorem lastOpWasJoin_cons_eq (tr : Trace) (u : UserId) (b : Bool) :
    lastOpWasJoin ((u, b) :: tr) u = b := by
  cases b <;> simp [lastOpWasJoin, lastEvent, List.find?]

/-- An event of another user leaves lastOpWasJoin unchanged. -/
theorem lastOpWasJoin_cons_ne (tr : Trace) (a v : UserId) (b : Bool)
    (h : a ≠ v) : lastOpWasJoin ((a, b) :: tr) v = lastOpWasJoin tr v := by
  simp [lastOpWasJoin, lastEvent, List.find?, h]

/-- Looking up the key of a single stored room finds it. -/
theorem findRoom_singleton {r : Room} {key : RoomKey} (h : r.key = key) :
    findRoom [r] key = some r := by
  simp [findRoom, List.find?, h]

/-- Updating the single stored room replaces it. -/
theorem putRoom_singleton {r q : Room} {key : RoomKey} (h : r.key = key) :
    putRoom [r] key q = [q] := by
  simp [putRoom, h]

/-- Removing the single stored room empties the store. -/
theorem removeRoom_singleton {r : Room} {key : RoomKey} (h : r.key = key) :
    removeRoom [r] key = [] := by
  simp [removeRoom, h]

/-- The invariant tying the room state to the event trace: while the room
exists it keeps its key and owner, its members are duplicate-free, and a
user is a member exactly when it is the owner or its last successful
operation was a join. -/
def RoomInv (key : RoomKey) (owner : UserId) : Option Room × Trace → Prop
  | (none, _) => True
  | (some r, tr) =>
      r.key = key ∧ r.ownerId = owner ∧ r.members.Nodup ∧
      ∀ u : UserId, u ∈ r.members ↔ (u = owner ∨ lastOpWasJoin tr u = true)

/-- Every operation preserves the room invariant. -/
theorem roomInv_applyOp (key : RoomKey) (owner : UserId)
    (st : Option Room × Trace) (op : Op) (h : RoomInv key owner st) :
    RoomInv key owner (applyOp key st op) := by
  obtain ⟨ro, tr⟩ := st
  cases ro with
  | none => cases op <;> exact h
  | some r =>
      obtain ⟨hkey, hown, hnd, hmem⟩ := h
      have hfind : findRoom [r] key = some r := findRoom_singleton hkey
      cases op with
      | join u =>
          by_cases hm : u ∈ r.members
          · have hj : joinRoom [r] key u = Except.ok (r, [r]) := by
              simp [joinRoom, hfind, hm]
            have hinv : RoomInv key owner (some r, (u, true) :: tr) := by
              refine ⟨hkey, hown, hnd, ?_⟩
              intro v
              by_cases hv : v = u
              · subst hv
                simp [lastOpWasJoin_cons_eq, hm]
              · rw [lastOpWasJoin_cons_ne tr u v true (fun e => hv e.symm)]
                exact hmem v
            simpa [applyOp, hj, hfind] using hinv
          · have hj : joinRoom [r] key u =
                Except.ok ({ r with members := u :: r.members },
                  [{ r with members := u :: r.members }]) := by
              simp [joinRoom, hfind, hm, putRoom_singleton hkey]
            have hfind2 : findRoom [{ r with members := u :: r.members }] key =
                some { r with members := u :: r.members } :=
              findRoom_singleton hkey
            have hinv : RoomInv key owner
                (some { r with members := u :: r.members }, (u, true) :: tr) := by
              refine ⟨hkey, hown, ?_, ?_⟩
              · simp [List.nodup_cons, hm, hnd]
              · intro v
                by_cases hv : v = u
                · subst hv
                  simp [lastOpWasJoin_cons_eq]
                · rw [lastOpWasJoin_cons_ne tr u v true (fun e => hv e.symm)]
                  simpa [List.mem_cons, hv] using hmem v
            simpa [applyOp, hj, hfind2] using hinv
      | leave u =>
          by_cases hm : u ∈ r.members
          · by_cases ho : u = r.ownerId
            · have hm2 : r.ownerId ∈ r.members := by rw [← ho]; exact hm
              have hl : leaveRoom [r] key u =
                  Except.ok (LeaveResult.RoomDeleted, []) := by
                simp [leaveRoom, hfind, hm, hm2, ho, removeRoom_singleton hkey]
              simp [applyOp, hl, findRoom, RoomInv]
            · have hl : leaveRoom [r] key u =
                  Except.ok (LeaveResult.snapshot { r with members := r.members.erase u },
                    [{ r with members := r.members.erase u }]) := by
                simp [leaveRoom, hfind, hm, ho, putRoom_singleton hkey]
              have hfind2 : findRoom [{ r with members := r.members.erase u }] key =
                  some { r with members := r.members.erase u } :=
                findRoom_singleton hkey
              have hinv : RoomInv key owner
                  (some { r with members := r.members.erase u }, (u, false) :: tr) := by
                refine ⟨hkey, hown, ?_, ?_⟩
                · exact List.Nodup.erase u hnd
                · intro v
                  by_cases hv : v = u
                  · subst hv
                    have hno : v ≠ owner := fun e => ho (e.trans hown.symm)
                    simp [List.Nodup.not_mem_erase hnd, lastOpWasJoin_cons_eq, hno]
                  · rw [lastOpWasJoin_cons_ne tr u v false (fun e => hv e.symm)]
                    simpa [List.mem_erase_of_ne hv] using hmem v
              simpa [applyOp, hl, hfind2] using hinv
          · have hl : leaveRoom [r] key u = Except.error RegErr.NotMember := by
              simp [leaveRoom, hfind, hm]
            simpa [applyOp, hl] using
              (⟨hkey, hown, hnd, hmem⟩ : RoomInv key owner (some r, tr))
      | kick q t =>
          by_cases hq : q = r.ownerId
          · by_cases ht : t = r.ownerId
            · have hkick : kickMember [r] key q t =
                  Except.error RegErr.CannotKickSelf := by
                simp [kickMember, hfind, hq, ht]
              simpa [applyOp, hkick] using
                (⟨hkey, hown, hnd, hmem⟩ : RoomInv key owner (some r, tr))
            · by_cases hm : t ∈ r.members
              · have hkick : kickMember [r] key q t =
                    Except.ok [{ r with members := r.members.erase t }] := by
                  simp [kickMember, hfind, hq, ht, hm, putRoom_singleton hkey]
                have hfind2 : findRoom [{ r with members := r.members.erase t }] key =
                    some { r with members := r.members.erase t } :=
                  findRoom_singleton hkey
                have hinv : RoomInv key owner
                    (some { r with members := r.members.erase t }, (t, false) :: tr) := by
                  refine ⟨hkey, hown, ?_, ?_⟩
                  · exact List.Nodup.erase t hnd
                  · intro v
                    by_cases hv : v = t
                    · subst hv
                      have hno : v ≠ owner := fun e => ht (e.trans hown.symm)
                      simp [List.Nodup.not_mem_erase hnd, lastOpWasJoin_cons_eq, hno]
                    · rw [lastOpWasJoin_cons_ne tr t v false (fun e => hv e.symm)]
                      simpa [List.mem_erase_of_ne hv] using hmem v
                simpa [applyOp, hkick, hfind2] using hinv
              · have hkick : kickMember [r] key q t =
                    Except.error RegErr.NotMember := by
                  simp [kickMember, hfind, hq, ht, hm]
                simpa [applyOp, hkick] using
                  (⟨hkey, hown, hnd, hmem⟩ : RoomInv key owner (some r, tr))
          · have hkick : kickMember [r] key q t =
                Except.error RegErr.NotOwner := by
              simp [kickMember, hfind, hq]
            simpa [applyOp, hkick] using
              (⟨hkey, hown, hnd, hmem⟩ : RoomInv key owner (some r, tr))

/-- The room invariant holds after any sequence of operations from the
room's creation. -/
theorem roomInv_runOps (key : RoomKey) (owner : UserId) (ops : List Op) :
    RoomInv key owner (runOps key owner ops) := by
  have base : RoomInv key owner (some (initRoom key owner), ([] : Trace)) := by
    refine ⟨rfl, rfl, by simp [initRoom], ?_⟩
    intro u
    simp [initRoom, lastOpWasJoin, lastEvent]
  have general : ∀ (l : List Op) (st : Option Room × Trace),
      RoomInv key owner st → RoomInv key owner (l.foldl (applyOp key) st) := by
    intro l
    induction l with
    | nil => intro st h; exact h
    | cons op rest ih =>
        intro st h
        exact ih _ (roomInv_applyOp key owner st op h)
  exact general ops _ base

/-- Counterexample to claim C3 as stated: after creating room k with
owner 1 and applying the empty operation sequence, user 1 is in the final
membership set although no operation of user 1 — let alone a successful
join — appears in the trace, so the membership set is not exactly the set
of users whose last operation was a successful join. -/
theorem membership_trace_claim_counterexample :
    (runOps "k" 1 []).1 = some (initRoom "k" 1) ∧
    1 ∈ (initRoom "k" 1).members ∧
    lastOpWasJoin (runOps "k" 1 []).2 1 = false := by
  refine ⟨rfl, by simp [initRoom], rfl⟩

/-- Claim C3 as amended: for every sequence of join, leave and kick
operations applied to a single room from its creation, while the room
still exists its membership set equals the owner together with exactly
the users whose last successful operation on the room was a join and who
have not since left or been kicked (the owner is a member from creation
without issuing any join). -/
theorem membership_matches_trace (key : RoomKey) (owner : UserId)
    (ops : List Op) (r : Room) (tr : Trace)
    (h : runOps key owner ops = (some r, tr)) :
    ∀ u : UserId, u ∈ r.members ↔ (u = owner ∨ lastOpWasJoin tr u = true) := by
  have hi := roomInv_runOps key owner ops
  rw [h] at hi
  exact hi.2.2.2

/-- Witness for the amended claim C3: after user 2 joins, user 3 joins
and user 2 leaves room k owned by 1, user 2 is not a member, in agreement
with its last event being the leave. -/
theorem membership_matches_trace_witness :
    (2 : UserId) ∈ (Room.mk "k" 1 [3, 1]).members ↔
      ((2 : UserId) = 1 ∨
        lastOpWasJoin [(2, false), (3, true), (2, true)] 2 = true) :=
  membership_matches_trace "k" 1 [Op.join 2, Op.join 3, Op.leave 2]
    (Room.mk "k" 1 [3, 1]) [(2, false), (3, true), (2, true)] (by decide) 2

/-- Claim C6: every room reachable from its creation through joinRoom,
leaveRoom and kickMember operations that have not deleted it has its
owner in its members set (and its owner is still the creator). -/
theorem invariant_owner_in_members (key : RoomKey) (owner : UserId)
    (ops : List Op) (r : Room)
    (h : (runOps key owner ops).1 = some r) :
    r.ownerId ∈ r.members ∧ r.ownerId = owner := by
  have hi := roomInv_runOps key owner ops
  rcases hrun : runOps key owner ops with ⟨ro, tr⟩
  rw [hrun] at hi h
  simp only at h
  rw [h] at hi
  obtain ⟨hkey, hown, hnd, hmem⟩ := hi
  refine ⟨?_, hown⟩
  rw [hown]
  exact (hmem owner).mpr (Or.inl rfl)

/-- Witness for claim C6: after user 5 joins room k created by owner 1,
the owner is still among the members. -/
theorem invariant_owner_in_members_witness :
    (Room.mk "k" 1 [5, 1]).ownerId ∈ (Room.mk "k" 1 [5, 1]).members ∧
    (Room.mk "k" 1 [5, 1]).ownerId = 1 :=
  invariant_owner_in_members "k" 1 [Op.join 5] (Room.mk "k" 1 [5, 1])
    (by decide)

/-- A transport connection handle. -/
abbrev ConnId := Nat

/-- Modelled from the spec, sections 4.2 and 4.3: the live-connection
index the PresenceCoordinator maintains with the BroadcastChannel — which
connection is currently registered in which room.  A session's
currentRoom is the room its connection is registered with. -/
structure PCState where
  regs : List (RoomKey × ConnId)
deriving DecidableEq, Repr

/-- Deregister a connection from every room (used by leave, disconnect,
and by join before registering the new room). -/
def deregister (st : PCState) (c : ConnId) : PCState :=
  PCState.mk (st.regs.filter (fun p => p.2 ≠ c))

/-- Modelled from the spec, section 4.2 onJoin: joining while already in
a room first leaves the current room — the connection is deregistered
from every previous room before being registered with the new one. -/
def onJoin (st : PCState) (c : ConnId) (key : RoomKey) : PCState :=
  PCState.mk ((key, c) :: (deregister st c).regs)

/-- Modelled from the spec, section 4.2 onLeave: the connection is
deregistered from the BroadcastChannel. -/
def onLeave (st : PCState) (c : ConnId) : PCState :=
  deregister st c

/-- A connection-lifecycle event the coordinator handles; disconnection
from a room is treated as an implicit leave. -/
inductive PCEvent where
  | join : ConnId → RoomKey → PCEvent
  | leave : ConnId → PCEvent
  | disconnect : ConnId → PCEvent
deriving DecidableEq, Repr

/-- One coordinator step. -/
def pcStep (st : PCState) : PCEvent → PCState
  | PCEvent.join c key => onJoin st c key
  | PCEvent.leave c => onLeave st c
  | PCEvent.disconnect c => onLeave st c

/-- Run the coordinator from process start (the live-connection index is
rebuilt from scratch on every start, so it begins empty). -/
def runPC (evs : List PCEvent) : PCState :=
  evs.foldl pcStep (PCState.mk [])

/-- The rooms a connection is currently registered in. -/
def roomsOf (st : PCState) (c : ConnId) : List RoomKey :=
  (st.regs.filter (fun p => p.2 = c)).map (fun p => p.1)

/-- The session's current room: the room its connection is registered
with, if any. -/
def currentRoom (st : PCState) (c : ConnId) : Option RoomKey :=
  (roomsOf st c).head?

/-- Deregistering removes a connection from every room and touches no
other connection. -/
theorem roomsOf_deregister (st : PCState) (c d : ConnId) :
    roomsOf (deregister st c) d = if d = c then [] else roomsOf st d := by
  by_cases h : d = c
  · subst h
    simp only [roomsOf, deregister, List.filter_filter, if_pos rfl]
    have hall : ∀ p : RoomKey × ConnId,
        (decide (p.2 = d) && decide (p.2 ≠ d)) = false := by
      intro p
      by_cases hp : p.2 = d <;> simp [hp]
    rw [List.filter_congr (fun p _ => hall p)]
    simp
  · simp only [roomsOf, deregister, List.filter_filter, if_neg h]
    have hsame : ∀ p : RoomKey × ConnId,
        (decide (p.2 = d) && decide (p.2 ≠ c)) = decide (p.2 = d) := by
      intro p
      by_cases hp : p.2 = d
      · simp [hp, h]
      · simp [hp]
    rw [List.filter_congr (fun p _ => hsame p)]

/-- After a join the connection is registered exactly in the joined room;
other connections are untouched. -/
theorem roomsOf_onJoin (st : PCState) (c : ConnId) (key : RoomKey) (d : ConnId) :
    roomsOf (onJoin st c key) d = if d = c then [key] else roomsOf st d := by
  by_cases h : d = c
  · subst h
    have hd := roomsOf_deregister st d d
    rw [if_pos rfl] at hd
    have hstep : roomsOf (onJoin st d key) d =
        key :: roomsOf (deregister st d) d := by
      simp [roomsOf, onJoin, List.filter_cons]
    rw [hstep, hd, if_pos rfl]
  · have hd := roomsOf_deregister st c d
    rw [if_neg h] at hd
    have hstep : roomsOf (onJoin st c key) d =
        roomsOf (deregister st c) d := by
      simp [roomsOf, onJoin, List.filter_cons, Ne.symm h]
    rw [hstep, hd, if_neg h]

/-- Claim C7: every session is in at most one room at any time: in every
coordinator state reachable from process start, a connection is
registered in at most one room, its currentRoom is exactly that
registration, and a join issued in any state — the session already in a
room included — leaves the connection registered exactly in the newly
joined room, never in two. -/
theorem session_single_room (evs : List PCEvent) (c : ConnId) :
    (roomsOf (runPC evs) c).length ≤ 1 ∧
    (∀ k : RoomKey, k ∈ roomsOf (runPC evs) c →
      currentRoom (runPC evs) c = some k) ∧
    ∀ k : RoomKey, roomsOf (runPC (evs ++ [PCEvent.join c k])) c = [k] := by
  have general : ∀ (l : List PCEvent) (st : PCState),
      (∀ d : ConnId, (roomsOf st d).length ≤ 1) →
      ∀ d : ConnId, (roomsOf (l.foldl pcStep st) d).length ≤ 1 := by
    intro l
    induction l with
    | nil => intro st h; exact h
    | cons ev rest ih =>
        intro st h
        refine ih (pcStep st ev) ?_
        intro e
        cases ev with
        | join c2 k2 =>
            simp only [pcStep]
            rw [roomsOf_onJoin]
            split
            · simp
            · exact h e
        | leave c2 =>
            simp only [pcStep, onLeave]
            rw [roomsOf_deregister]
            split
            · simp
            · exact h e
        | disconnect c2 =>
            simp only [pcStep, onLeave]
            rw [roomsOf_deregister]
            split
            · simp
            · exact h e
  have base : ∀ d : ConnId, (roomsOf (PCState.mk []) d).length ≤ 1 := by
    intro d
    simp [roomsOf]
  have h1 : (roomsOf (runPC evs) c).length ≤ 1 := general evs (PCState.mk []) base c
  refine ⟨h1, ?_, ?_⟩
  · intro k hk
    cases hcase : roomsOf (runPC evs) c with
    | nil =>
        rw [hcase] at hk
        simp at hk
    | cons a rest =>
        rw [hcase] at hk h1
        simp only [List.length_cons] at h1
        have hlen : rest.length = 0 := by omega
        have hrest : rest = [] := List.eq_nil_of_length_eq_zero hlen
        subst hrest
        simp only [List.mem_singleton] at hk
        subst hk
        simp [currentRoom, hcase]
  · intro k
    have happ : runPC (evs ++ [PCEvent.join c k]) =
        pcStep (runPC evs) (PCEvent.join c k) := by
      simp [runPC, List.foldl_append]
    rw [happ]
    simp only [pcStep]
    rw [roomsOf_onJoin]
    simp

end Chatify
